import Mathlib

/-!
Shallow embedding, in Lean 4, of the restaurant voice-agent core
(tools/order_tools.py, tools/menu_tools.py, tools/knowledge_tools.py,
tools/call_tools.py, services/api_client.py, agent.py, agent_old.py).

Conventions of the embedding:
* Python strings are Lean `String`; `str.lower()` is `lowerStr`,
  `str.strip()` is `pyStrip`, `str.split()` is `pyWords`, and the Python
  substring test `a in b` is `pyIn a b`.
* Money is carried in exact cents (`Nat`): the source stores prices as
  2-decimal floating point numbers and only adds and prints them, which is
  exact on cents, so `float(price)` becomes `price : Nat` (cents) and the
  format `f"{x:.2f}"` becomes `fmtCents`.
* HTTP calls are made explicit: a handler receives the response
  (`HttpResult`), where `HttpResult.exn` stands for any raised exception
  (timeout, connection error, a body that fails to parse) and
  `HttpResult.response` for a completed HTTP exchange.
* Tools with side effects return, next to their reply string, a trace of
  the effects they issued (order submissions, SMS sends, SIP actions), so
  that claims about "no SMS is sent" or "the delay precedes the hang-up"
  are statements about that trace.
* The wall clock (UTC timestamps attached to transcript entries) is
  modelled by a `Nat` stamp carried by each incoming event.
-/

/-- `str.lower()` of Python, character by character (ASCII, which is the
domain of the menu and query strings handled by the agent). -/
def lowerStr (s : String) : String := String.mk (s.toList.map Char.toLower)

/-- Drop leading and trailing whitespace of a character list. -/
def stripChars (l : List Char) : List Char :=
  ((l.dropWhile Char.isWhitespace).reverse.dropWhile Char.isWhitespace).reverse

/-- `str.strip()` of Python. -/
def pyStrip (s : String) : String := String.mk (stripChars s.toList)

/-- Helper of `pyWords`: split a character list on runs of whitespace,
accumulating the current word (reversed) in `acc`. -/
def wordsAux : List Char → List Char → List (List Char)
  | [], acc => if acc.isEmpty then [] else [acc.reverse]
  | c :: cs, acc =>
    if c.isWhitespace then
      if acc.isEmpty then wordsAux cs [] else acc.reverse :: wordsAux cs []
    else wordsAux cs (c :: acc)

/-- `str.split()` of Python with no argument: split on runs of whitespace
and drop empty pieces. -/
def pyWords (s : String) : List String := (wordsAux s.toList []).map String.mk

/-- The Python substring test `needle in hay` on strings. -/
def pyIn (needle hay : String) : Bool := decide (needle.toList <:+: hay.toList)

/-- `sep.join(parts)` of Python. -/
def joinSep (sep : String) : List String → String
  | [] => ""
  | [x] => x
  | x :: y :: xs => x ++ sep ++ joinSep sep (y :: xs)

/-- Render an amount of cents the way Python renders the matching
2-decimal float with `f"{x:.2f}"`. -/
def fmtCents (c : Nat) : String :=
  toString (c / 100) ++ "." ++ (if c % 100 < 10 then "0" else "") ++ toString (c % 100)

/-- A menu item as the API client stores it in `menu_by_category`:
`{'name': ..., 'price': ..., 'id': ...}` (price in cents). -/
structure MenuItem where
  name : String
  price : Nat
  id : Option String
deriving DecidableEq

/-- `menu_by_category`: an insertion-ordered mapping from category name to
its list of items (a Python dict, embedded as an association list). -/
abbrev Menu : Type := List (String × List MenuItem)

/-- All items of the menu in category-then-position order, as the nested
`for category ... for item ...` loops of the source visit them. -/
def flatItems (menu : Menu) : List MenuItem := (menu.map Prod.snd).flatten

/-- The dict `item_lookup[item['name'].lower()] = item` built by
`place_order` and `get_item_prices`: on duplicate lowered names the item
assigned last wins, so the lookup finds the last matching item. -/
def itemLookup (menu : Menu) (key : String) : Option MenuItem :=
  (flatItems menu).reverse.find? (fun it => lowerStr it.name == key)

/-! ### services/api_client.py -/

/-- One HTTP exchange as a handler observes it: either some exception was
raised (timeout, connection error, unreadable or malformed body), or a
response with a status code and a successfully parsed body arrived. -/
inductive HttpResult (β : Type) where
  | exn (msg : String)
  | response (status : Nat) (body : β)
deriving DecidableEq

/-- One element of the JSON array returned by `GET /api/menu/{storeId}`;
`category` is `none` when the key is absent (Python then defaults to
`"Other"`). -/
structure RawMenuItem where
  name : String
  basePrice : Nat
  id : Option String
  category : Option String
deriving DecidableEq

/-- Append `it` to the bucket of category `c`, creating the bucket at the
end on first touch — the `defaultdict(list)` of `load_menu` with dict
insertion order. -/
def addToCategory : Menu → String → MenuItem → Menu
  | [], c, it => [(c, [it])]
  | (k, v) :: rest, c, it =>
    if k = c then (k, v ++ [it]) :: rest else (k, v) :: addToCategory rest c it

/-- The grouping loop of `load_menu` over the parsed body. -/
def groupMenu (items : List RawMenuItem) : Menu :=
  items.foldl
    (fun acc it => addToCategory acc (it.category.getD "Other") ⟨it.name, it.basePrice, it.id⟩) []

/-- `api_client.load_menu`: non-200 status or any exception yields the
empty map; a 200 response is grouped by category. -/
def load_menu (r : HttpResult (List RawMenuItem)) : Menu :=
  match r with
  | .exn _ => []
  | .response status body => if status ≠ 200 then [] else groupMenu body

/-- A knowledge-base entry `{question, answer}`. -/
structure KBEntry where
  question : String
  answer : String
deriving DecidableEq

/-- The parsed body of `GET /api/knowledge-base/{storeId}`: either a JSON
list of entries or some other JSON value (Python checks `isinstance(kb_data,
list)`). -/
inductive KBBody where
  | notList
  | entries (l : List KBEntry)
deriving DecidableEq

/-- `api_client.load_knowledge_base`: non-200 status, any exception, or a
non-list body yields the empty list. -/
def load_knowledge_base (r : HttpResult KBBody) : List KBEntry :=
  match r with
  | .exn _ => []
  | .response status body =>
    if status ≠ 200 then []
    else match body with
      | .notList => []
      | .entries l => l

/-- What `api_client.create_conversation` returns: the parsed response JSON
(kept opaque as a string) or a tagged error — in Python a dict that is the
parsed body, or `{"error": msg}`. -/
inductive ConvResult where
  | ok (data : String)
  | error (msg : String)
deriving DecidableEq

/-- `api_client.create_conversation`: a 200/201 response yields the parsed
body; any other status yields a tagged error naming the status; any raised
exception yields a tagged error with the exception text. -/
def create_conversation (r : HttpResult String) : ConvResult :=
  match r with
  | .exn msg => .error msg
  | .response status body =>
    if status = 200 ∨ status = 201 then .ok body
    else .error ("Failed to create conversation: " ++ toString status)

/-! ### tools/menu_tools.py — get_item_prices -/

/-- `menu_tools.get_item_prices` (menu taken after the lazy load): look
each name up case-insensitively (no whitespace trimming), list found
prices, add a total when more than one item was found, and list the names
that did not resolve. -/
def get_item_prices (menu : Menu) (itemNames : List String) : String :=
  let found := itemNames.filterMap (fun n => itemLookup menu (lowerStr n))
  let notFound := itemNames.filter (fun n => (itemLookup menu (lowerStr n)).isNone)
  let total := (found.map MenuItem.price).sum
  if found.isEmpty && !notFound.isEmpty then
    "Sorry, I couldn't find: " ++ joinSep ", " notFound
  else
    let lines := found.map (fun it => it.name ++ ": $" ++ fmtCents it.price)
    let lines := if 1 < found.length then lines ++ ["Total: $" ++ fmtCents total] else lines
    let lines :=
      if !notFound.isEmpty then lines ++ ["(Couldn't find: " ++ joinSep ", " notFound ++ ")"]
      else lines
    joinSep "\n" lines

/-! ### tools/order_tools.py — place_order -/

/-- One element of the `items` array submitted with the order:
`{"name", "quantity": 1, "price", "id"}`. -/
structure OrderLine where
  name : String
  quantity : Nat
  price : Nat
  id : Option String
deriving DecidableEq

/-- The order line built from a resolved menu item. -/
def mkLine (it : MenuItem) : OrderLine := ⟨it.name, 1, it.price, it.id⟩

/-- The `order_items` list built by the resolution loop of `place_order`:
one line per requested name that resolves, in request order, never
aggregated. -/
def orderLines (menu : Menu) (items : List String) : List OrderLine :=
  items.filterMap (fun n => (itemLookup menu (lowerStr n)).map mkLine)

/-- The running `total` accumulated by the same loop. -/
def orderTotalFold (menu : Menu) (items : List String) : Nat :=
  items.foldl
    (fun acc n =>
      match itemLookup menu (lowerStr n) with
      | some it => acc + it.price
      | none => acc) 0

/-- The `found_items` list of resolved display names. -/
def foundNames (menu : Menu) (items : List String) : List String :=
  items.filterMap (fun n => (itemLookup menu (lowerStr n)).map MenuItem.name)

/-- Everything `place_order` did in one invocation: the string given back
to the dialogue manager, how many order-submission POSTs it issued, and the
SMS messages it sent as (recipient, body) pairs. -/
structure PlaceOrderOutcome where
  reply : String
  orderPosts : Nat
  smsMessages : List (String × String)
deriving DecidableEq

/-- The hardcoded test numbers of the source. -/
def testCustomerPhone : String := "+13239529493"

def testMerchantPhone : String := "+12173186661"

/-- `order_tools.place_order` (menu taken after the lazy load;
`formattedPickup` is the pickup string the tool computed from its
`pickup_time` argument or the clock; `postStatus` is the status code of
the order-submission POST, observed only if that POST is issued). -/
def place_order (hasSession : Bool) (menu : Menu) (postStatus : Nat)
    (storeId storeName : String) (items : List String) (customerName : String)
    (formattedPickup : String) : PlaceOrderOutcome :=
  if !hasSession then ⟨"Error: API session not available", 0, []⟩
  else
    let lines := orderLines menu items
    if lines.isEmpty then ⟨"No valid items found in the order.", 0, []⟩
    else if !(postStatus = 200 ∨ postStatus = 201 : Bool) then
      ⟨"I'm sorry, there was an issue placing your order. Please try calling back.", 1, []⟩
    else
      let total := orderTotalFold menu items
      let names := foundNames menu items
      let paymentLink := "https://www.miaojieai.com/pay/" ++ storeId ++ "/order"
      let customerSms :=
        "Hi " ++ customerName ++ "! Order confirmed at " ++ storeName ++
        ". Total: $" ++ fmtCents total ++ ". Pickup: " ++ formattedPickup ++
        ". Pay here: " ++ paymentLink
      let merchantSms :=
        "🔔 New Order! " ++ customerName ++ " - " ++ testCustomerPhone ++
        ". Items: " ++ joinSep ", " names ++ ". Total: $" ++ fmtCents total ++
        ". Pickup: " ++ formattedPickup
      ⟨"Perfect! Your order for " ++ joinSep ", " names ++ " totaling $" ++ fmtCents total ++
        " is confirmed for pickup at " ++ formattedPickup ++
        ". You'll receive a text message with payment details shortly.",
        1,
        [(testCustomerPhone, customerSms), (testMerchantPhone, merchantSms)]⟩

/-! ### agent_old.py — get_menu_categories -/

/-- Lexicographic (code-point) order on character lists, the order Python
`sorted` uses on strings. -/
def charListLe : List Char → List Char → Bool
  | [], _ => true
  | _ :: _, [] => false
  | a :: as, b :: bs => if a < b then true else if b < a then false else charListLe as bs

/-- The order on strings behind Python `sorted(keys)`. -/
def strOrd (a b : String) : Prop := charListLe a.data b.data = true

instance : DecidableRel strOrd := fun _ _ => instDecidableEqBool _ _

/-- The keyword list classifying a category as an add-on. -/
def addonKeywords : List String := ["add-on", "side", "extra", "sauce", "drink", "beverage"]

/-- A category is an add-on exactly when its lowered name contains one of
the keywords as a substring. -/
def isAddonCategory (c : String) : Bool := addonKeywords.any (fun k => pyIn k (lowerStr c))

/-- `sorted(self.menu_by_category.keys())`. -/
def sortedCategoryNames (menu : Menu) : List String :=
  List.insertionSort strOrd (menu.map Prod.fst)

/-- The `main_categories` list built by the classification loop. -/
def mainCategoriesOf (menu : Menu) : List String :=
  (sortedCategoryNames menu).filter (fun c => !isAddonCategory c)

/-- The `addon_categories` list built by the classification loop. -/
def addonCategoriesOf (menu : Menu) : List String :=
  (sortedCategoryNames menu).filter isAddonCategory

/-- The generic add-on mention appended to the spoken summary. -/
def addonMention : String := ". Also available: sides, drinks, and extras."

/-- `agent_old.get_menu_categories` (menu taken after the lazy load). -/
def get_menu_categories (menu : Menu) : String :=
  let main := mainCategoriesOf menu
  let addon := addonCategoriesOf menu
  if main.isEmpty then "No menu categories available."
  else
    let featured := main.take 4
    let s := "Main categories: " ++ joinSep ", " featured
    let s := if 4 < main.length then s ++ " (plus " ++ toString (main.length - 4) ++ " more)" else s
    if addon.isEmpty then s else s ++ addonMention

/-! ### tools/call_tools.py — end_call -/

/-- The observable steps `end_call` takes, in order: the fixed 10-second
delay, the participant listing, and a SIP participant removal. -/
inductive CallAction where
  | sleepDelay
  | listParticipants
  | removeParticipant (identity : String)
deriving DecidableEq

/-- A room participant as `end_call` sees it (`isSip` is the
`PARTICIPANT_KIND_SIP` test). -/
structure RoomParticipant where
  identity : String
  isSip : Bool
deriving DecidableEq

/-- The environment one `end_call` invocation runs against:
whether `assistant.livekit_api` and `assistant.room_name` are both set,
what `list_participants` yields (`none` = it raised), and whether
`remove_participant` completes without raising. -/
structure EndCallEnv where
  hasApiAndRoom : Bool
  listResult : Option (List RoomParticipant)
  removeSucceeds : Bool
deriving DecidableEq

/-- `call_tools.end_call`: the action trace it issues and the string it
returns. The delay is unconditionally first; the first SIP participant
found is removed; every failure path degrades to "Call ending...". -/
def end_call (env : EndCallEnv) : List CallAction × String :=
  let tail : List CallAction × String :=
    if !env.hasApiAndRoom then ([], "Call ending...")
    else
      match env.listResult with
      | none => ([.listParticipants], "Call ending...")
      | some ps =>
        match ps.find? (fun p => p.isSip) with
        | none => ([.listParticipants], "Call ending...")
        | some p =>
          if env.removeSucceeds then
            ([.listParticipants, .removeParticipant p.identity], "Call ended. Goodbye!")
          else
            ([.listParticipants, .removeParticipant p.identity], "Call ending...")
  (.sleepDelay :: tail.1, tail.2)

/-! ### agent.py — transcript event handlers -/

/-- An event arriving at the two transcript handlers of `agent.py`:
an STT transcription (`user_input_transcribed`) or a conversation item
(`conversation_item_added`, whose `text_content` is `none` when it is not
a string). `ts` is the UTC clock reading taken when the handler runs. -/
inductive CallEvent where
  | transcription (text : String) (isFinal : Bool) (ts : Nat)
  | convItem (role : String) (textContent : Option String) (ts : Nat)
deriving DecidableEq

/-- One entry of `assistant.call_transcript`. -/
structure TranscriptEntry where
  role : String
  content : String
  timestamp : Nat
deriving DecidableEq

/-- The two handlers of `agent.py`, merged over the event type: what the
transcript list becomes after one event. -/
def handleEvent (tr : List TranscriptEntry) : CallEvent → List TranscriptEntry
  | .transcription t isFinal ts =>
    let text := pyStrip t
    if text = "" then tr
    else if isFinal then tr ++ [⟨"customer", text, ts⟩]
    else tr
  | .convItem role textContent ts =>
    if role ≠ "assistant" then tr
    else
      match textContent with
      | none => tr
      | some s =>
        let text := pyStrip s
        if text = "" then tr else tr ++ [⟨"agent", text, ts⟩]

/-- The transcript after a whole arrival-ordered event sequence. -/
def processEvents (evs : List CallEvent) : List TranscriptEntry :=
  evs.foldl handleEvent []

/-- The entry a single event contributes, if any (the characterization the
claim theorems are stated against). -/
def entryOf : CallEvent → Option TranscriptEntry
  | .transcription t isFinal ts =>
    let text := pyStrip t
    if text = "" then none
    else if isFinal then some ⟨"customer", text, ts⟩
    else none
  | .convItem role textContent ts =>
    if role ≠ "assistant" then none
    else
      match textContent with
      | none => none
      | some s =>
        let text := pyStrip s
        if text = "" then none else some ⟨"agent", text, ts⟩

/-! ### tools/knowledge_tools.py — search_knowledge_base -/

/-- The fixed stopword set of the word-overlap scoring. -/
def kbStopwords : Finset String :=
  (["do", "you", "have", "is", "are", "the", "a", "an",
    "what", "how", "when", "where", "can", "i"] : List String).toFinset

/-- The fixed key-term list of the +150 bonus. -/
def kbKeyTerms : List String :=
  ["free", "crab legs", "pricing", "hours", "location", "delivery",
   "takeout", "to-go", "kids", "children"]

/-- The synonym table, keys other than "crab legs". -/
def synOfNC (w : String) : List String :=
  if w = "kids" then ["children", "kid", "child"]
  else if w = "children" then ["kids", "kid", "child"]
  else if w = "price" then ["cost", "pricing", "how much"]
  else if w = "cost" then ["price", "pricing", "how much"]
  else if w = "hours" then ["open", "close", "time"]
  else if w = "takeout" then ["to-go", "take out", "carryout"]
  else if w = "to-go" then ["takeout", "take out", "carryout"]
  else []

/-- The full synonym table of the source (dict keys are distinct, so the
order of the equality tests is immaterial). -/
def synOf (w : String) : List String :=
  if w = "crab legs" then ["crab", "seafood boil"] else synOfNC w

/-- Expand a query word list with the synonyms of each word: the loop
`for word in list(query_words): if word in synonyms: query_words.update(...)`
iterates a snapshot of the original set, so the result is the original set
united with the synonyms of its members. -/
def expandWords (ws : List String) : Finset String :=
  ws.toFinset ∪ ws.toFinset.biUnion (fun w => (synOf w).toFinset)

/-- The same expansion using only the single-word-key part of the table. -/
def expandWordsNC (ws : List String) : Finset String :=
  ws.toFinset ∪ ws.toFinset.biUnion (fun w => (synOfNC w).toFinset)

/-- `query.lower().strip()`. -/
def kbQueryLower (query : String) : String := pyStrip (lowerStr query)

/-- The expanded query word set used for the overlap scoring. -/
def kbQueryWords (query : String) : Finset String :=
  expandWords (pyWords (kbQueryLower query))

/-- Steps 1-3 of the scoring: exact match, query-in-question,
question-in-query. -/
def kbBase (ql question : String) : Nat :=
  if ql = question then 1000
  else if pyIn ql question then 500
  else if pyIn question ql then 400
  else 0

/-- `meaningful_common`: words common to the (expanded) query word set and
the question, minus the stopwords. -/
def kbMeaningful (qws : Finset String) (question : String) : Nat :=
  ((qws ∩ (pyWords question).toFinset) \ kbStopwords).card

/-- Step 4 of the scoring: the word-overlap points with the two-word
bonus (both only added when some meaningful word is common). -/
def kbOverlap (qws : Finset String) (question : String) : Nat :=
  if kbMeaningful qws question ≠ 0 then
    kbMeaningful qws question * 50 + (if 2 ≤ kbMeaningful qws question then 100 else 0)
  else 0

/-- Step 5 of the scoring: +150 per key term present in both the lowered
query string and the question. -/
def kbKeyTermPoints (ql question : String) : Nat :=
  (kbKeyTerms.filter (fun t => pyIn t ql && pyIn t question)).length * 150

/-- The score `search_knowledge_base` gives one entry, given the lowered
query string and the expanded query word set. -/
def scoreEntry (ql : String) (qws : Finset String) (e : KBEntry) : Nat :=
  kbBase ql (lowerStr e.question) + kbOverlap qws (lowerStr e.question)
    + kbKeyTermPoints ql (lowerStr e.question)

/-- The scoring formula exactly as the specification states it: match
points, plus 50 per meaningful common word, plus 100 when at least two
meaningful words match, plus 150 per key term in both strings — with no
guard on the overlap part. The claim theorem proves it equal to
`scoreEntry`. -/
def claimScore (ql : String) (qws : Finset String) (e : KBEntry) : Nat :=
  (if ql = lowerStr e.question then 1000
   else if pyIn ql (lowerStr e.question) then 500
   else if pyIn (lowerStr e.question) ql then 400
   else 0)
  + 50 * kbMeaningful qws (lowerStr e.question)
  + (if 2 ≤ kbMeaningful qws (lowerStr e.question) then 100 else 0)
  + 150 * (kbKeyTerms.filter
      (fun t => pyIn t ql && pyIn t (lowerStr e.question))).length

/-- The `scored_results` list: entries scoring at least 50, paired with
their scores, in knowledge-base order. -/
def kbScored (kb : List KBEntry) (query : String) : List (KBEntry × Nat) :=
  kb.filterMap (fun e =>
    let s := scoreEntry (kbQueryLower query) (kbQueryWords query) e
    if 50 ≤ s then some (e, s) else none)

/-- Scored entries ordered highest score first, ties keeping knowledge-base
order (Python `sort(key=score, reverse=True)` is stable). -/
def kbRel : KBEntry × Nat → KBEntry × Nat → Prop := fun a b => b.2 ≤ a.2

instance : DecidableRel kbRel := fun a b => Nat.decLe b.2 a.2

instance : IsTotal (KBEntry × Nat) kbRel := ⟨fun a b => Nat.le_total b.2 a.2⟩

instance : IsTrans (KBEntry × Nat) kbRel := ⟨fun _ _ _ h1 h2 => Nat.le_trans h2 h1⟩

def kbRanked (kb : List KBEntry) (query : String) : List (KBEntry × Nat) :=
  List.insertionSort kbRel (kbScored kb query)

/-- The Q/A block printed for one surviving entry. -/
def kbFormatOne (r : KBEntry × Nat) : String :=
  "Q: " ++ r.1.question ++ "\nA: " ++ r.1.answer

/-- `knowledge_tools.search_knowledge_base` (knowledge base taken after the
lazy load — an empty list after a failed load answers with the first
fallback string). -/
def search_knowledge_base (kb : List KBEntry) (query : String) : String :=
  if kb.isEmpty then "I don't have that information. Please call us directly."
  else
    let ranked := kbRanked kb query
    if ranked.isEmpty then
      "I don't have specific info about '" ++ query ++
        "'. You can call us at (618) 258-1888 for details."
    else joinSep "\n\n" ((ranked.take 5).map kbFormatOne)

/-! ### tools/menu_tools.py — search_menu_items -/

/-- An item as the `all_items` list of `search_menu_items` carries it. -/
structure MItem where
  name : String
  price : Nat
  category : String
deriving DecidableEq

/-- The `all_items` list flattened from the menu. -/
def allItemsOf (menu : Menu) : List MItem :=
  (menu.map (fun kv => kv.2.map (fun it => MItem.mk it.name it.price kv.1))).flatten

/-- `search_term.lower().strip()`. -/
def termLower (t : String) : String := pyStrip (lowerStr t)

/-- `search_words = set(search_lower.split())`. -/
def termWords (t : String) : Finset String := (pyWords (termLower t)).toFinset

/-- The word set of an item name. -/
def itemWords (it : MItem) : Finset String := (pyWords (lowerStr it.name)).toFinset

/-- One scored candidate. The source scores with the float
`len(matching)/len(search_words) + (0.5 if substring else 0)`; the
embedding carries that exact value scaled by `10 * len(search_words)`,
which keeps it in `Nat` — `scaledScore = 10*matchCount + 5*w` with the
substring bonus, `10*matchCount` without, where `w` is the query word
count. The claim theorem proves this is the stated rational score. -/
structure Cand where
  item : MItem
  scaledScore : Nat
  matchCount : Nat
deriving DecidableEq

/-- The scoring loop of `search_menu_items` for one query: items sharing at
least one word with the query, with their scaled scores. -/
def candsFor (allItems : List MItem) (t : String) : List Cand :=
  allItems.filterMap (fun it =>
    let m := termWords t ∩ itemWords it
    if m.card = 0 then none
    else
      some ⟨it,
        10 * m.card +
          (if pyIn (termLower t) (lowerStr it.name) then 5 * (termWords t).card else 0),
        m.card⟩)

/-- Python sorts `matches` by the key `(score, matching_words)` descending,
stably; `candRel a b` says `a` may stay in front of `b`. Scores of one
query share the denominator, so comparing scaled scores is comparing
scores. -/
def candRel : Cand → Cand → Prop := fun a b =>
  b.scaledScore < a.scaledScore ∨
    (b.scaledScore = a.scaledScore ∧ b.matchCount ≤ a.matchCount)

instance : DecidableRel candRel := fun a b => by unfold candRel; infer_instance

instance : IsTotal Cand candRel := by
  constructor
  intro a b
  unfold candRel
  omega

instance : IsTrans Cand candRel := by
  constructor
  intro a b c hab hbc
  unfold candRel at *
  omega

/-- The `matches` list sorted best first. -/
def rankedCands (allItems : List MItem) (t : String) : List Cand :=
  List.insertionSort candRel (candsFor allItems t)

/-- The "found" line of an auto-resolved item. -/
def foundLine (it : MItem) : String :=
  "✓ Found: " ++ it.name ++ " ($" ++ fmtCents it.price ++ ")"

/-- The numbered suggestion block of a low-confidence query. -/
def suggestBlock (t : String) (cs : List Cand) : String :=
  "❓ Did you mean one of these for '" ++ t ++ "'?\n" ++
    joinSep "\n"
      (cs.enum.map (fun ic =>
        toString (ic.1 + 1) ++ ". " ++ ic.2.item.name ++ " ($" ++ fmtCents ic.2.item.price ++ ")")) ++
    "\nWhich one would you like?"

/-- The per-query body of `search_menu_items`: exact match first, then the
scored candidates — auto-resolve when the best score reaches 0.8 (compared
as `8*w ≤ scaledScore`, the same inequality over the shared denominator),
else up to 3 suggestions, else the per-query miss message. -/
def searchOne (allItems : List MItem) (t : String) : String :=
  match allItems.find? (fun it => lowerStr it.name == termLower t) with
  | some it => foundLine it
  | none =>
    match rankedCands allItems t with
    | [] => "✗ Sorry, couldn't find '" ++ t ++ "' on our menu."
    | best :: _ =>
      if 8 * (termWords t).card ≤ best.scaledScore then foundLine best.item
      else suggestBlock t ((rankedCands allItems t).take 3)

/-- `menu_tools.search_menu_items` (menu taken after the lazy load). -/
def search_menu_items (menu : Menu) (itemNames : List String) : String :=
  joinSep "\n\n" (itemNames.map (searchOne (allItemsOf menu)))

/-! ### Concrete inputs used by the witness theorems -/

/-- A small two-category catalog. -/
def menuEx : Menu :=
  [("Chicken", [⟨"Orange Chicken", 1299, some "oc1"⟩, ⟨"Sesame Chicken", 1199, some "sc1"⟩]),
   ("Drinks", [⟨"Coke", 250, none⟩])]

/-- The catalog item the duplicate-line witness orders twice. -/
def orderItemEx : MenuItem := ⟨"Orange Chicken", 1299, some "oc1"⟩

/-- A small knowledge base. -/
def kbEx : List KBEntry :=
  [⟨"What is the pricing for children?", "Kids eat for 5.99."⟩,
   ⟨"Do you have delivery?", "Yes, within 5 miles."⟩]

/-- A room with one human SIP leg and the agent. -/
def endCallEnvEx : EndCallEnv :=
  ⟨true, some [⟨"agent-1", false⟩, ⟨"sip_+15551234567", true⟩], true⟩

/-- An interleaving of final, interim, customer and agent events. -/
def eventsEx : List CallEvent :=
  [.transcription "hello" true 0, .transcription "can i" false 1,
   .convItem "assistant" (some "Hi! How can I help?") 2,
   .transcription "can i order" true 3, .convItem "user" (some "can i order") 4,
   .convItem "assistant" (some " Sure thing. ") 5]

/-! ### The claim contracts -/

/-- What C2 asserts of the three backend-client operations, at one failing
status, one exception, and arbitrary bodies. -/
def BackendFailureContract (m : String) (st : Nat) (bm : List RawMenuItem)
    (bk : KBBody) (bc : String) : Prop :=
  load_menu (.response st bm) = []
  ∧ load_menu (.exn m) = []
  ∧ load_knowledge_base (.response st bk) = []
  ∧ load_knowledge_base (.exn m) = []
  ∧ create_conversation (.response st bc)
      = .error ("Failed to create conversation: " ++ toString st)
  ∧ create_conversation (.exn m) = .error m

/-- What C8 asserts of one `end_call` invocation. -/
def EndCallContract (env : EndCallEnv) : Prop :=
  (end_call env).1.head? = some CallAction.sleepDelay
  ∧ (∀ a ∈ (end_call env).1.tail, a ≠ CallAction.sleepDelay)
  ∧ (env.hasApiAndRoom = false → (end_call env).2 = "Call ending...")
  ∧ (env.listResult = none → (end_call env).2 = "Call ending...")
  ∧ (∀ ps, env.listResult = some ps → ps.find? (fun p => p.isSip) = none →
      (end_call env).2 = "Call ending...")
  ∧ (env.removeSucceeds = false → (end_call env).2 = "Call ending...")
  ∧ ((end_call env).2 = "Call ended. Goodbye!" →
      ∃ ps p, env.listResult = some ps
        ∧ ps.find? (fun q => q.isSip) = some p
        ∧ env.removeSucceeds = true
        ∧ CallAction.removeParticipant p.identity ∈ (end_call env).1)

/-- What C1 (amended: with an available API session) asserts of one
`place_order` invocation. -/
def PlaceOrderContract (hasSession : Bool) (menu : Menu) (postStatus : Nat)
    (storeId storeName : String) (items : List String)
    (customerName formattedPickup : String) : Prop :=
  (place_order hasSession menu postStatus storeId storeName items customerName
      formattedPickup).orderPosts ≤ 1
  ∧ (hasSession = true → (∀ n ∈ items, itemLookup menu (lowerStr n) = none) →
      place_order hasSession menu postStatus storeId storeName items customerName
          formattedPickup
        = ⟨"No valid items found in the order.", 0, []⟩)
  ∧ (hasSession = true → orderLines menu items ≠ [] → postStatus ≠ 200 → postStatus ≠ 201 →
      place_order hasSession menu postStatus storeId storeName items customerName
          formattedPickup
        = ⟨"I'm sorry, there was an issue placing your order. Please try calling back.",
            1, []⟩)

/-- What C10 asserts: requesting an item k times yields k quantity-1 lines
and a total that is the sum of every line price. -/
def DuplicateLinesContract (menu : Menu) (items : List String) (it : MenuItem) : Prop :=
  ((orderLines menu items).filter (fun l => l = mkLine it)).length
      = (items.filter (fun n => lowerStr n = lowerStr it.name)).length
  ∧ (∀ l ∈ orderLines menu items, l.quantity = 1)
  ∧ (mkLine it).quantity = 1 ∧ (mkLine it).price = it.price
  ∧ orderTotalFold menu items = ((orderLines menu items).map OrderLine.price).sum

/-- What C6 (amended: case-insensitive, whitespace significant) asserts of
a single-name price lookup. -/
def PriceLookupContract (menu : Menu) (q : String) : Prop :=
  (∀ it, itemLookup menu (lowerStr q) = some it →
      get_item_prices menu [q] = it.name ++ ": $" ++ fmtCents it.price)
  ∧ ((∀ it ∈ flatItems menu, lowerStr it.name ≠ lowerStr q) →
      get_item_prices menu [q] = "Sorry, I couldn't find: " ++ q)
  ∧ (∀ it ∈ flatItems menu, lowerStr it.name = lowerStr q →
      ∃ x, itemLookup menu (lowerStr q) = some x ∧ lowerStr x.name = lowerStr q)

/-- What C3 (amended: texts that strip to empty are skipped) asserts of the
two transcript handlers over a whole event sequence. -/
def TranscriptContract (evs : List CallEvent) : Prop :=
  processEvents evs = evs.filterMap entryOf
  ∧ (∀ t ts, entryOf (.transcription t false ts) = none)
  ∧ (∀ r tc ts, r ≠ "assistant" → entryOf (.convItem r tc ts) = none)
  ∧ (∀ ts, entryOf (.convItem "assistant" none ts) = none)
  ∧ (∀ t ts, pyStrip t ≠ "" →
      entryOf (.transcription t true ts) = some ⟨"customer", pyStrip t, ts⟩)
  ∧ (∀ s ts, pyStrip s ≠ "" →
      entryOf (.convItem "assistant" (some s) ts) = some ⟨"agent", pyStrip s, ts⟩)

/-- What C7 (amended: a catalog whose every category is an add-on answers
"No menu categories available." without the add-on mention) asserts of
`get_menu_categories`. -/
def MenuCategoriesContract (menu : Menu) : Prop :=
  (∀ c ∈ sortedCategoryNames menu,
    (c ∈ mainCategoriesOf menu ↔ isAddonCategory c = false)
    ∧ (c ∈ addonCategoriesOf menu ↔ isAddonCategory c = true))
  ∧ (sortedCategoryNames menu).Perm (menu.map Prod.fst)
  ∧ ((mainCategoriesOf menu).take 4).length ≤ 4
  ∧ (mainCategoriesOf menu = [] → get_menu_categories menu = "No menu categories available.")
  ∧ (mainCategoriesOf menu ≠ [] →
      get_menu_categories menu =
        "Main categories: " ++ joinSep ", " ((mainCategoriesOf menu).take 4)
        ++ (if 4 < (mainCategoriesOf menu).length
            then " (plus " ++ toString ((mainCategoriesOf menu).length - 4) ++ " more)"
            else "")
        ++ (if (addonCategoriesOf menu).isEmpty then "" else addonMention))

/-- The Python membership test `' ' in w` on a word. -/
def hasSpace (w : String) : Bool := decide (' ' ∈ w.data)

/-- What C9 asserts: the expansion loop looks up single whitespace-split
words only, so the spaced key "crab legs" never fires (the table behaves
as its single-word-key restriction), and spaced synonym values can be
dropped from the expanded set without changing any entry score. -/
def SynonymExpansionContract (q : String) : Prop :=
  "crab legs" ∉ pyWords (kbQueryLower q)
  ∧ kbQueryWords q = expandWordsNC (pyWords (kbQueryLower q))
  ∧ ∀ e : KBEntry, scoreEntry (kbQueryLower q) (kbQueryWords q) e
      = scoreEntry (kbQueryLower q)
          ((kbQueryWords q).filter (fun w => hasSpace w = false)) e

/-- What C4 asserts of `search_knowledge_base`: the score is exactly the
specification formula, sub-50 entries are excluded and the rest kept,
results come highest score first, at most 5 formatted Q/A blocks are
joined, and the no-match fallback is a non-empty "don't have" string. -/
def KnowledgeSearchContract (kb : List KBEntry) (query : String) : Prop :=
  (∀ e : KBEntry, scoreEntry (kbQueryLower query) (kbQueryWords query) e
      = claimScore (kbQueryLower query) (kbQueryWords query) e)
  ∧ (∀ p ∈ kbRanked kb query,
      50 ≤ p.2 ∧ p.2 = scoreEntry (kbQueryLower query) (kbQueryWords query) p.1 ∧ p.1 ∈ kb)
  ∧ (∀ e ∈ kb, 50 ≤ scoreEntry (kbQueryLower query) (kbQueryWords query) e →
      (e, scoreEntry (kbQueryLower query) (kbQueryWords query) e) ∈ kbRanked kb query)
  ∧ List.Sorted kbRel (kbRanked kb query)
  ∧ (kb ≠ [] → kbRanked kb query ≠ [] →
      search_knowledge_base kb query
        = joinSep "\n\n" (((kbRanked kb query).take 5).map kbFormatOne)
      ∧ ((kbRanked kb query).take 5).length ≤ 5)
  ∧ (kb ≠ [] → kbRanked kb query = [] →
      search_knowledge_base kb query
        = "I don't have specific info about '" ++ query
            ++ "'. You can call us at (618) 258-1888 for details.")
  ∧ (kb = [] →
      search_knowledge_base kb query
        = "I don't have that information. Please call us directly.")
  ∧ search_knowledge_base kb query ≠ ""

/-- The exact rational score of a candidate: its scaled score divided by
ten times the query word count (the shared denominator of one query). -/
def qScoreOf (w : Nat) (c : Cand) : ℚ := (c.scaledScore : ℚ) / (10 * w)

/-- What C5 asserts of `search_menu_items`, per query: exact
case-insensitive match first; otherwise every item sharing a word is
scored word-overlap-share-plus-substring-bonus, the list is ranked best
first, the top item is auto-resolved exactly when its score reaches 0.8,
otherwise at most 3 ranked suggestions are returned, and a query sharing
no word with any item gets the per-query miss message. -/
def MenuSearchContract (menu : Menu) (t : String) : Prop :=
  (∀ it, (allItemsOf menu).find? (fun i => lowerStr i.name == termLower t) = some it →
      searchOne (allItemsOf menu) t = foundLine it)
  ∧ (∀ c ∈ candsFor (allItemsOf menu) t,
      c.matchCount = (termWords t ∩ itemWords c.item).card
      ∧ c.matchCount ≠ 0
      ∧ ((termWords t).card ≠ 0 →
          qScoreOf (termWords t).card c
            = (c.matchCount : ℚ) / (termWords t).card
              + (if pyIn (termLower t) (lowerStr c.item.name) then (1 : ℚ)/2 else 0)))
  ∧ (∀ it ∈ allItemsOf menu, (termWords t ∩ itemWords it).card ≠ 0 →
      ∃ c ∈ candsFor (allItemsOf menu) t, c.item = it)
  ∧ ((termWords t).card ≠ 0 →
      List.Sorted
        (fun a b => qScoreOf (termWords t).card b ≤ qScoreOf (termWords t).card a)
        (rankedCands (allItemsOf menu) t))
  ∧ ((allItemsOf menu).find? (fun i => lowerStr i.name == termLower t) = none →
      (∀ best rest, rankedCands (allItemsOf menu) t = best :: rest →
        (termWords t).card ≠ 0 →
        ((4/5 : ℚ) ≤ qScoreOf (termWords t).card best →
            searchOne (allItemsOf menu) t = foundLine best.item)
        ∧ (¬ (4/5 : ℚ) ≤ qScoreOf (termWords t).card best →
            searchOne (allItemsOf menu) t
              = suggestBlock t ((rankedCands (allItemsOf menu) t).take 3)
            ∧ ((rankedCands (allItemsOf menu) t).take 3).length ≤ 3))
      ∧ (rankedCands (allItemsOf menu) t = [] →
          searchOne (allItemsOf menu) t
            = "✗ Sorry, couldn't find '" ++ t ++ "' on our menu."))
  ∧ (candsFor (allItemsOf menu) t = [] ↔
      ∀ it ∈ allItemsOf menu, (termWords t ∩ itemWords it).card = 0)
  ∧ (∀ ts : List String,
      search_menu_items menu ts = joinSep "\n\n" (ts.map (searchOne (allItemsOf menu))))

/-! ### Helper lemmas -/

/-- A successful lookup returns an item whose lowered name is the key. -/
theorem itemLookup_some_name {menu : Menu} {k : String} {it : MenuItem}
    (h : itemLookup menu k = some it) : lowerStr it.name = k := by
  have hp := List.find?_some h
  simpa using hp

/-- The lookup misses exactly when no catalog item has the key as its
lowered name. -/
theorem itemLookup_eq_none_iff {menu : Menu} {k : String} :
    itemLookup menu k = none ↔ ∀ it ∈ flatItems menu, lowerStr it.name ≠ k := by
  unfold itemLookup
  rw [List.find?_eq_none]
  constructor
  · intro h it hit
    have := h it (List.mem_reverse.mpr hit)
    simpa using this
  · intro h it hit
    have := h it (List.mem_reverse.mp hit)
    simpa using this

/-- A catalog item makes the lookup of its lowered name succeed. -/
theorem itemLookup_isSome_of_mem {menu : Menu} {it : MenuItem}
    (h : it ∈ flatItems menu) :
    ∃ x, itemLookup menu (lowerStr it.name) = some x
      ∧ lowerStr x.name = lowerStr it.name := by
  cases hx : itemLookup menu (lowerStr it.name) with
  | none =>
    exact absurd rfl (itemLookup_eq_none_iff.mp hx it h)
  | some x =>
    exact ⟨x, rfl, itemLookup_some_name hx⟩

/-- Order lines all carry quantity 1. -/
theorem orderLines_quantity {menu : Menu} {items : List String} :
    ∀ l ∈ orderLines menu items, l.quantity = 1 := by
  intro l hl
  obtain ⟨n, -, hn⟩ := List.mem_filterMap.mp hl
  obtain ⟨x, -, hx⟩ := Option.map_eq_some'.mp hn
  subst hx
  rfl

/-- The running total of the resolution loop is the sum of the line
prices. -/
theorem orderTotalFold_eq_sum (menu : Menu) (items : List String) :
    orderTotalFold menu items = ((orderLines menu items).map OrderLine.price).sum := by
  suffices h : ∀ l acc, l.foldl
      (fun acc n =>
        match itemLookup menu (lowerStr n) with
        | some it => acc + it.price
        | none => acc) acc
      = acc + ((orderLines menu l).map OrderLine.price).sum by
    simpa using h items 0
  intro l
  induction l with
  | nil => intro acc; simp [orderLines]
  | cons n rest ih =>
    intro acc
    rw [List.foldl_cons]
    cases hn : itemLookup menu (lowerStr n) with
    | none => simp only [hn, orderLines, List.filterMap_cons, Option.map_none']; rw [ih]; rfl
    | some x =>
      simp only [hn, orderLines, List.filterMap_cons, Option.map_some']
      rw [ih, List.map_cons, List.sum_cons]
      have hp : (mkLine x).price = x.price := rfl
      rw [hp, Nat.add_assoc]
      rfl

/-! ### C2 -/

/-- C2: every backend-client network operation is total over failures —
a non-2xx status, or any raised exception (timeout, connection error,
malformed body, all embedded as `HttpResult.exn`), makes `load_menu`
return the empty map, `load_knowledge_base` the empty list, and
`create_conversation` a tagged `ConvResult.error`; the embeddings are
total functions, so nothing propagates. -/
theorem backend_failures_total (m : String) (st : Nat) (bm : List RawMenuItem)
    (bk : KBBody) (bc : String) (h2xx : st < 200 ∨ 300 ≤ st) :
    BackendFailureContract m st bm bk bc := by
  have h200 : st ≠ 200 := by omega
  have h201 : st ≠ 201 := by omega
  refine ⟨?_, rfl, ?_, rfl, ?_, rfl⟩
  · simp [load_menu, h200]
  · simp [load_knowledge_base, h200]
  · simp [create_conversation, h200, h201]

/-- Witness for C2 at status 404, a timeout exception, and concrete
bodies. -/
theorem backend_failures_total_witness :
    ((404 : Nat) < 200 ∨ 300 ≤ (404 : Nat))
      ∧ BackendFailureContract "timeout" 404 [⟨"Coke", 250, none, none⟩] .notList "resp" :=
  ⟨by decide, backend_failures_total "timeout" 404 [⟨"Coke", 250, none, none⟩] .notList "resp"
    (by decide)⟩

/-! ### C8 -/

/-- C8: `end_call` always performs its fixed delay first — the delay heads
the action trace and occurs nowhere later, so the participant lookup and
removal follow it; a missing API/room handle, a listing failure, a room
without a SIP participant, and a failing removal all answer with the soft
"Call ending..."; and "Call ended. Goodbye!" is returned only when a SIP
participant was found and its removal was issued and succeeded. -/
theorem end_call_contract (env : EndCallEnv) : EndCallContract env := by
  obtain ⟨har, lr, rs⟩ := env
  cases har with
  | false =>
    refine ⟨rfl, ?_, fun _ => rfl, fun _ => rfl, ?_, fun _ => rfl, ?_⟩
    · simp [end_call]
    · intro ps2 h hn; cases h; rfl
    · intro h; simp [end_call] at h
  | true =>
    cases lr with
    | none =>
      refine ⟨rfl, ?_, ?_, fun _ => rfl, ?_, fun _ => rfl, ?_⟩
      · simp [end_call]
      · intro h; cases h
      · intro ps2 h; cases h
      · intro h; simp [end_call] at h
    | some ps =>
      cases hf : ps.find? (fun p => p.isSip) with
      | none =>
        refine ⟨rfl, ?_, ?_, ?_, ?_, ?_, ?_⟩
        · simp [end_call, hf]
        · intro h; cases h
        · intro h; cases h
        · intro ps2 h _; cases h; simp [end_call, hf]
        · intro _; simp [end_call, hf]
        · intro h; rw [show (end_call ⟨true, some ps, rs⟩).2 = "Call ending..." by
            simp [end_call, hf]] at h
          exact absurd h (by decide)
      | some p =>
        cases rs with
        | false =>
          refine ⟨rfl, ?_, ?_, ?_, ?_, fun _ => ?_, ?_⟩
          · simp [end_call, hf]
          · intro h; cases h
          · intro h; cases h
          · intro ps2 h hn; cases h; rw [hf] at hn; cases hn
          · simp [end_call, hf]
          · intro h; rw [show (end_call ⟨true, some ps, false⟩).2 = "Call ending..." by
              simp [end_call, hf]] at h
            exact absurd h (by decide)
        | true =>
          refine ⟨rfl, ?_, ?_, ?_, ?_, ?_, ?_⟩
          · simp [end_call, hf]
          · intro h; cases h
          · intro h; cases h
          · intro ps2 h hn; cases h; rw [hf] at hn; cases hn
          · intro h; cases h
          · intro _; exact ⟨ps, p, rfl, hf, rfl, by simp [end_call, hf]⟩

/-- Witness for C8: a room holding the agent and one SIP leg; the removal
succeeds. -/
theorem end_call_contract_witness : EndCallContract endCallEnvEx :=
  end_call_contract endCallEnvEx

/-! ### C1 -/

/-- Counterexample for C1 as frozen: with no API session available, no
requested name resolves against the (empty) catalog, yet `place_order`
answers "Error: API session not available", not "No valid items found in
the order." — the claim holds only once an API session is available. -/
theorem place_order_no_session_cex :
    itemLookup ([] : Menu) (lowerStr "Orange Chicken") = none
    ∧ (place_order false [] 201 "s1" "Panda Express" ["Orange Chicken"] "Sam"
        "11:30 AM").reply = "Error: API session not available"
    ∧ (place_order false [] 201 "s1" "Panda Express" ["Orange Chicken"] "Sam"
        "11:30 AM").reply ≠ "No valid items found in the order." := by
  refine ⟨rfl, rfl, by decide⟩

/-- C1 (amended): `place_order` issues at most one order-submission POST;
when an API session is available and no requested name resolves
case-insensitively, it answers "No valid items found in the order." with
no submission and no SMS; and when the submission response status is
neither 200 nor 201, it answers the apology and sends no SMS. -/
theorem place_order_contract (hasSession : Bool) (menu : Menu) (postStatus : Nat)
    (storeId storeName : String) (items : List String)
    (customerName formattedPickup : String) :
    PlaceOrderContract hasSession menu postStatus storeId storeName items
      customerName formattedPickup := by
  refine ⟨?_, ?_, ?_⟩
  · simp only [place_order]
    split_ifs <;> simp
  · intro hs hnone
    subst hs
    have hl : orderLines menu items = [] := by
      apply List.filterMap_eq_nil_iff.mpr
      intro n hn
      rw [hnone n hn]
      rfl
    unfold place_order
    simp [hl]
  · intro hs hne h200 h201
    subst hs
    have hl : (orderLines menu items).isEmpty = false := by
      cases hq : orderLines menu items with
      | nil => exact absurd hq hne
      | cons a l => rfl
    unfold place_order
    simp [hl, h200, h201]

/-- Witness for C1: a failing submission (status 500) on a resolvable
order returns the apology with one POST and no SMS. -/
theorem place_order_contract_witness :
    PlaceOrderContract true menuEx 500 "s1" "Panda Express" ["Orange Chicken"]
      "Sam" "11:30 AM" :=
  place_order_contract true menuEx 500 "s1" "Panda Express" ["Orange Chicken"]
    "Sam" "11:30 AM"

/-! ### C10 -/

/-- C10: each occurrence of a resolvable item name becomes its own
quantity-1 line at the unit price, duplicates are never aggregated, and
the computed total is the sum of every line price (so k occurrences
contribute the price k times). -/
theorem order_duplicate_lines (menu : Menu) (items : List String) (it : MenuItem)
    (h : itemLookup menu (lowerStr it.name) = some it) :
    DuplicateLinesContract menu items it := by
  refine ⟨?_, orderLines_quantity, rfl, rfl, orderTotalFold_eq_sum menu items⟩
  induction items with
  | nil => rfl
  | cons n rest ih =>
    cases hn : itemLookup menu (lowerStr n) with
    | none =>
      have hne : ¬ lowerStr n = lowerStr it.name := by
        intro he
        rw [he, h] at hn
        cases hn
      simp only [orderLines, List.filterMap_cons, hn, List.filter_cons, hne,
        decide_False, Bool.false_eq_true, if_false]
      exact ih
    | some x =>
      by_cases he : lowerStr n = lowerStr it.name
      · have hx : x = it := by
          rw [he, h] at hn
          exact (Option.some_inj.mp hn).symm
        subst hx
        simp only [orderLines, List.filterMap_cons, hn, Option.map_some',
          List.filter_cons]
        simp only [he, decide_True, if_true, List.length_cons, eq_self_iff_true]
        exact congrArg Nat.succ ih
      · have hmk : ¬ mkLine x = mkLine it := by
          intro hm
          have hxit : x = it := by
            cases x
            cases it
            simpa [mkLine, OrderLine.mk.injEq, MenuItem.mk.injEq] using hm
          rw [hxit] at hn
          exact he (itemLookup_some_name hn).symm
        simp only [orderLines, List.filterMap_cons, hn, Option.map_some',
          List.filter_cons, he, hmk, decide_False, Bool.false_eq_true, if_false]
        exact ih

/-- Witness for C10: ordering "Orange Chicken" twice in different letter
case yields two lines and a doubled total. -/
theorem order_duplicate_lines_witness :
    itemLookup menuEx (lowerStr orderItemEx.name) = some orderItemEx
      ∧ DuplicateLinesContract menuEx ["Orange Chicken", "orange CHICKEN", "Coke"]
          orderItemEx :=
  ⟨by decide,
    order_duplicate_lines menuEx ["Orange Chicken", "orange CHICKEN", "Coke"]
      orderItemEx (by decide)⟩

/-! ### C6 -/

/-- Counterexample for C6 as frozen: the catalog holds "Orange Chicken",
the query " Orange Chicken" differs from it only by leading whitespace
(its trimmed form is the item name), yet the lookup reports it not found —
no trimming is performed, so trim-insensitivity fails. -/
theorem price_lookup_trim_cex :
    (⟨"Orange Chicken", 1299, some "oc1"⟩ : MenuItem) ∈ flatItems menuEx
    ∧ pyStrip " Orange Chicken" = "Orange Chicken"
    ∧ get_item_prices menuEx [" Orange Chicken"]
        = "Sorry, I couldn't find:  Orange Chicken" := by
  refine ⟨by decide, by decide, by decide⟩

/-- C6 (amended): the price lookup of `get_item_prices` is exactly
case-insensitive — a query equal to a catalog item name up to letter case
resolves (to the last catalog item with that lowered name), and a query
whose lowered form matches no item is reported not found; surrounding
whitespace is significant. -/
theorem price_lookup_contract (menu : Menu) (q : String) :
    PriceLookupContract menu q := by
  refine ⟨?_, ?_, ?_⟩
  · intro it h
    simp [get_item_prices, h, joinSep]
  · intro hnone
    have h : itemLookup menu (lowerStr q) = none :=
      itemLookup_eq_none_iff.mpr (fun it hit => hnone it hit)
    simp [get_item_prices, h, joinSep]
  · intro it hit he
    obtain ⟨x, hx, hxn⟩ := itemLookup_isSome_of_mem hit
    rw [he] at hx hxn
    exact ⟨x, hx, hxn⟩

/-- Witness for C6: an all-caps query resolves against `menuEx`. -/
theorem price_lookup_contract_witness : PriceLookupContract menuEx "ORANGE CHICKEN" :=
  price_lookup_contract menuEx "ORANGE CHICKEN"

/-! ### C3 -/

/-- One handler step appends exactly the entry the event contributes. -/
theorem handleEvent_eq (tr : List TranscriptEntry) (e : CallEvent) :
    handleEvent tr e = tr ++ (entryOf e).toList := by
  cases e with
  | transcription t f ts =>
    by_cases ht : pyStrip t = ""
    · simp [handleEvent, entryOf, ht]
    · cases f <;> simp [handleEvent, entryOf, ht]
  | convItem r tc ts =>
    by_cases hr : r = "assistant"
    · subst hr
      cases tc with
      | none => simp [handleEvent, entryOf]
      | some s =>
        by_cases hs : pyStrip s = ""
        · simp [handleEvent, entryOf, hs]
        · simp [handleEvent, entryOf, hs]
    · simp [handleEvent, entryOf, hr]

/-- Folding the handlers from any transcript appends the contributed
entries in arrival order. -/
theorem foldl_handleEvent (evs : List CallEvent) :
    ∀ tr, evs.foldl handleEvent tr = tr ++ evs.filterMap entryOf := by
  induction evs with
  | nil => intro tr; simp
  | cons e rest ih =>
    intro tr
    rw [List.foldl_cons, handleEvent_eq, ih, List.filterMap_cons]
    cases entryOf e <;> simp

/-- Counterexample for C3 as frozen: a finalized customer transcription
whose text is whitespace-only is dropped, not appended, so "appended
exactly when finalized" fails without the non-empty-text proviso. -/
theorem transcript_blank_final_cex :
    processEvents [CallEvent.transcription " " true 0] = [] := by decide

/-- C3 (amended): the transcript after any arrival-ordered event sequence
is exactly the in-order image of the events under `entryOf` — appended
exactly when the event is a finalized transcription with non-blank text
(role "customer") or an assistant-authored string item with non-blank text
(role "agent"); interim transcriptions and non-assistant items never
append; each entry carries the UTC stamp of its event. -/
theorem transcript_handlers_contract (evs : List CallEvent) :
    TranscriptContract evs := by
  refine ⟨by simpa using foldl_handleEvent evs [], ?_, ?_, ?_, ?_, ?_⟩
  · intro t ts
    by_cases ht : pyStrip t = "" <;> simp [entryOf, ht]
  · intro r tc ts hr
    simp [entryOf, hr]
  · intro ts
    simp [entryOf]
  · intro t ts ht
    simp [entryOf, ht]
  · intro s ts hs
    simp [entryOf, hs]

/-- Witness for C3: an interleaving of two finalized transcriptions, one
interim transcription, one user-authored item and two agent texts. -/
theorem transcript_handlers_contract_witness : TranscriptContract eventsEx :=
  transcript_handlers_contract eventsEx

/-! ### C7 -/

/-- Counterexample for C7 as frozen: a catalog whose only category is the
add-on "Drinks" has an add-on category but its spoken summary, the early
return "No menu categories available.", does not mention add-ons — so
"mentions add-ons exactly when at least one add-on category exists"
fails. -/
theorem menu_categories_addons_only_cex :
    addonCategoriesOf [("Drinks", [])] = ["Drinks"]
    ∧ get_menu_categories [("Drinks", [])] = "No menu categories available."
    ∧ pyIn addonMention (get_menu_categories [("Drinks", [])]) = false := by
  refine ⟨by decide, by decide, by decide⟩

/-- C7 (amended): classification is a deterministic partition — a category
is an add-on exactly when its lowered name contains one of the fixed
keywords, main otherwise; when at least one main category exists the
summary names the first 4 sorted main categories, appends the remainder
count `len(main) - 4` exactly when it is positive, and appends the add-on
mention exactly when an add-on category exists; when no main category
exists it answers "No menu categories available." regardless of
add-ons. -/
theorem menu_categories_contract (menu : Menu) : MenuCategoriesContract menu := by
  refine ⟨?_, List.perm_insertionSort strOrd (menu.map Prod.fst), ?_, ?_, ?_⟩
  · intro c hc
    constructor
    · simp [mainCategoriesOf, List.mem_filter, hc, Bool.not_eq_true']
    · simp [addonCategoriesOf, List.mem_filter, hc]
  · simp only [List.length_take]
    omega
  · intro h
    simp [get_menu_categories, h]
  · intro h
    have hne : (mainCategoriesOf menu).isEmpty = false := by
      cases hq : mainCategoriesOf menu with
      | nil => exact absurd hq h
      | cons a l => rfl
    by_cases h4 : 4 < (mainCategoriesOf menu).length
      <;> by_cases ha : (addonCategoriesOf menu).isEmpty
      <;> simp [get_menu_categories, hne, h4, ha, String.append_empty, String.append_assoc]

/-- Witness for C7: `menuEx` has one main and one add-on category. -/
theorem menu_categories_contract_witness : MenuCategoriesContract menuEx :=
  menu_categories_contract menuEx

/-! ### C9 -/

/-- Split words contain no whitespace characters, as long as the seed
accumulator does not. -/
theorem wordsAux_no_ws : ∀ (l acc : List Char),
    (∀ c ∈ acc, c.isWhitespace = false) →
    ∀ w ∈ wordsAux l acc, ∀ c ∈ w, c.isWhitespace = false := by
  intro l
  induction l with
  | nil =>
    intro acc hacc w hw c hc
    revert hw
    simp only [wordsAux]
    split
    · intro hw; cases hw
    · intro hw
      rw [List.mem_singleton] at hw
      subst hw
      exact hacc c (List.mem_reverse.mp hc)
  | cons a as ih =>
    intro acc hacc w hw c hc
    revert hw
    simp only [wordsAux]
    split
    · split
      · intro hw
        exact ih [] (by simp) w hw c hc
      · intro hw
        rcases List.mem_cons.mp hw with hw | hw
        · subst hw
          exact hacc c (List.mem_reverse.mp hc)
        · exact ih [] (by simp) w hw c hc
    · rename_i ha
      intro hw
      refine ih (a :: acc) ?_ w hw c hc
      intro c2 hc2
      rcases List.mem_cons.mp hc2 with h | h
      · subst h
        exact Bool.not_eq_true _ ▸ (by simpa using ha)
      · exact hacc c2 h

/-- Every word `str.split()` produces is whitespace-free. -/
theorem pyWords_no_ws (s : String) (w : String) (hw : w ∈ pyWords s) :
    ∀ c ∈ w.data, c.isWhitespace = false := by
  obtain ⟨lw, hlw, rfl⟩ := List.mem_map.mp hw
  intro c hc
  exact wordsAux_no_ws _ [] (by simp) lw hlw c hc

/-- No split word is the spaced key "crab legs". -/
theorem pyWords_ne_crab (s : String) (w : String) (hw : w ∈ pyWords s) :
    w ≠ "crab legs" := by
  intro he
  subst he
  have := pyWords_no_ws s "crab legs" hw ' ' (by decide)
  simp at this

/-- No split word contains a space. -/
theorem pyWords_no_space (s : String) (w : String) (hw : w ∈ pyWords s) :
    hasSpace w = false := by
  unfold hasSpace
  rw [decide_eq_false_iff_not]
  intro hmem
  have := pyWords_no_ws s w hw ' ' hmem
  simp at this

/-- C9: synonym expansion matches individual whitespace-split words, so
the spaced key "crab legs" never fires — the table acts as its
single-word-key restriction — and removing the spaced synonym values
("how much", "take out", "seafood boil") from the expanded word set
changes no entry score, because question words are whitespace-split and
can never equal them. -/
theorem synonym_expansion_contract (q : String) : SynonymExpansionContract q := by
  refine ⟨fun h => pyWords_ne_crab _ _ h rfl, ?_, ?_⟩
  · unfold kbQueryWords expandWords expandWordsNC
    rw [Finset.biUnion_congr rfl ?_]
    intro w hw
    rw [synOf, if_neg (pyWords_ne_crab _ _ (List.mem_toFinset.mp hw))]
  · intro e
    have hm : kbMeaningful ((kbQueryWords q).filter (fun w => hasSpace w = false))
        (lowerStr e.question) = kbMeaningful (kbQueryWords q) (lowerStr e.question) := by
      unfold kbMeaningful
      congr 1
      congr 1
      ext x
      simp only [Finset.mem_inter, Finset.mem_filter, List.mem_toFinset]
      constructor
      · rintro ⟨⟨hx, -⟩, hq2⟩
        exact ⟨hx, hq2⟩
      · rintro ⟨hx, hq2⟩
        exact ⟨⟨hx, pyWords_no_space _ _ hq2⟩, hq2⟩
    have hov : kbOverlap ((kbQueryWords q).filter (fun w => hasSpace w = false))
        (lowerStr e.question) = kbOverlap (kbQueryWords q) (lowerStr e.question) := by
      unfold kbOverlap
      rw [hm]
    unfold scoreEntry
    rw [hov]

/-- Witness for C9 at the query "kids pricing". -/
theorem synonym_expansion_contract_witness : SynonymExpansionContract "kids pricing" :=
  synonym_expansion_contract "kids pricing"

/-! ### C4 -/

/-- The join of a non-empty list is at least as long as its head. -/
theorem joinSep_head_length (sep x : String) (xs : List String) :
    x.length ≤ (joinSep sep (x :: xs)).length := by
  cases xs with
  | nil => simp [joinSep]
  | cons y ys =>
    simp only [joinSep, String.length_append]
    omega

/-- Every formatted Q/A block is non-empty. -/
theorem kbFormatOne_length (r : KBEntry × Nat) : 0 < (kbFormatOne r).length := by
  unfold kbFormatOne
  simp only [String.length_append]
  have h : 0 < ("Q: " : String).length := by decide
  omega

/-- A string of positive length is not empty. -/
theorem ne_empty_of_pos_length (s : String) (h : 0 < s.length) : s ≠ "" := by
  intro he
  rw [he] at h
  exact absurd h (by decide)

/-- C4: `search_knowledge_base` scores entries exactly by the stated
formula (match points, 50 per meaningful common word, +100 at two or more,
+150 per shared key term), keeps exactly the entries scoring at least 50,
orders them highest score first, formats at most 5 as Q/A blocks, and
falls back to a non-empty "don't have" string when nothing clears the
threshold. -/
theorem knowledge_search_contract (kb : List KBEntry) (query : String) :
    KnowledgeSearchContract kb query := by
  have hperm := List.perm_insertionSort kbRel (kbScored kb query)
  refine ⟨?_, ?_, ?_, List.sorted_insertionSort kbRel _, ?_, ?_, ?_, ?_⟩
  · intro e
    unfold scoreEntry claimScore kbBase kbOverlap kbKeyTermPoints
    by_cases hm : kbMeaningful (kbQueryWords query) (lowerStr e.question) = 0
      <;> by_cases h2 : 2 ≤ kbMeaningful (kbQueryWords query) (lowerStr e.question)
      <;> simp [hm, h2]
      <;> omega
  · intro p hp
    have hps : p ∈ kbScored kb query := (hperm.mem_iff).mp hp
    obtain ⟨e, he, hee⟩ := List.mem_filterMap.mp hps
    by_cases hs : 50 ≤ scoreEntry (kbQueryLower query) (kbQueryWords query) e
    · rw [if_pos hs] at hee
      cases hee
      exact ⟨hs, rfl, he⟩
    · rw [if_neg hs] at hee
      cases hee
  · intro e he hs
    apply (hperm.mem_iff).mpr
    apply List.mem_filterMap.mpr
    exact ⟨e, he, by rw [if_pos hs]⟩
  · intro hkb hr
    have h1 : kb.isEmpty = false := by
      cases kb with
      | nil => exact absurd rfl hkb
      | cons a l => rfl
    have h2 : (kbRanked kb query).isEmpty = false := by
      cases hq : kbRanked kb query with
      | nil => exact absurd hq hr
      | cons a l => rfl
    constructor
    · simp [search_knowledge_base, h1, h2]
    · simp only [List.length_take]
      omega
  · intro hkb hr
    have h1 : kb.isEmpty = false := by
      cases kb with
      | nil => exact absurd rfl hkb
      | cons a l => rfl
    simp [search_knowledge_base, h1, hr, joinSep]
  · intro hkb
    subst hkb
    simp [search_knowledge_base]
  · by_cases h1 : kb.isEmpty = true
    · simp only [search_knowledge_base, h1, if_true]
      decide
    · by_cases h2 : (kbRanked kb query).isEmpty = true
      · simp only [search_knowledge_base, h1, h2, if_true, if_false, Bool.false_eq_true]
        intro hcontra
        have hl := congrArg String.length hcontra
        rw [String.length_append, String.length_append] at hl
        have hq : 0 < ("I don't have specific info about '" : String).length := by decide
        have hz : ("" : String).length = 0 := by decide
        omega
      · cases hq : kbRanked kb query with
        | nil => exact absurd (by rw [hq]; rfl) h2
        | cons p rest =>
          simp only [search_knowledge_base, h1, h2, if_false, Bool.false_eq_true, hq]
          have hlen : 0 < (joinSep "\n\n" (((p :: rest).take 5).map kbFormatOne)).length := by
            have h5 : (p :: rest).take 5 = p :: rest.take 4 := rfl
            rw [h5, List.map_cons]
            have := joinSep_head_length "\n\n" (kbFormatOne p) ((rest.take 4).map kbFormatOne)
            have := kbFormatOne_length p
            omega
          exact ne_empty_of_pos_length _ hlen

/-- Witness for C4: `kbEx` and the query "kids pricing". -/
theorem knowledge_search_contract_witness : KnowledgeSearchContract kbEx "kids pricing" :=
  knowledge_search_contract kbEx "kids pricing"

/-! ### C5 -/

/-- The scaled candidate score divided by its shared denominator is the
stated word-overlap share plus the half-point substring bonus. -/
theorem cand_score_formula (w n : Nat) (b : Bool) (hw : w ≠ 0) :
    ((10 * n + (if b then 5 * w else 0) : Nat) : ℚ) / (10 * w)
      = (n : ℚ) / w + (if b then (1 : ℚ)/2 else 0) := by
  have hw' : (w : ℚ) ≠ 0 := Nat.cast_ne_zero.mpr hw
  cases b with
  | false =>
    rw [if_neg (by decide : ¬ (false = true)), if_neg (by decide : ¬ (false = true))]
    push_cast
    field_simp [hw']
    ring
  | true =>
    rw [if_pos (rfl : true = true), if_pos (rfl : true = true)]
    push_cast
    field_simp [hw']
    ring

/-- The 0.8 auto-accept threshold over the shared denominator is the
scaled comparison the embedding computes. -/
theorem cand_threshold (w s : Nat) (hw : w ≠ 0) :
    ((4 : ℚ)/5 ≤ (s : ℚ) / (10 * w)) ↔ 8 * w ≤ s := by
  have hwpos : (0 : ℚ) < 10 * (w : ℚ) := by
    have h := Nat.pos_of_ne_zero hw
    have : (0 : ℚ) < (w : ℚ) := by exact_mod_cast h
    linarith
  rw [div_le_div_iff (by norm_num) hwpos]
  rw [show (4 : ℚ) * (10 * (w : ℚ)) = ((40 * w : Nat) : ℚ) by push_cast; ring]
  rw [show ((s : ℚ) * 5) = ((5 * s : Nat) : ℚ) by push_cast; ring]
  rw [Nat.cast_le]
  omega

/-- Dividing by the shared positive denominator preserves order. -/
theorem cand_mono (w s1 s2 : Nat) (hw : w ≠ 0) (h : s1 ≤ s2) :
    (s1 : ℚ) / (10 * w) ≤ (s2 : ℚ) / (10 * w) := by
  have hwpos : (0 : ℚ) < 10 * (w : ℚ) := by
    have hp := Nat.pos_of_ne_zero hw
    have : (0 : ℚ) < (w : ℚ) := by exact_mod_cast hp
    linarith
  rw [div_le_div_iff_of_pos_right hwpos]
  exact_mod_cast h

/-- C5: per query, `search_menu_items` tries an exact case-insensitive
full-name match first; otherwise each item sharing a word is scored
|query words ∩ item words| / |query words| plus 0.5 when the query is a
substring of the item name; the ranking is best-score first; the top item
is auto-resolved exactly when its score reaches 0.8; otherwise at most 3
ranked suggestions are returned, and a query sharing no word with any
item gets the per-query miss message. -/
theorem menu_search_contract (menu : Menu) (t : String) : MenuSearchContract menu t := by
  refine ⟨?_, ?_, ?_, ?_, ?_, ?_, fun ts => rfl⟩
  · intro it hf
    unfold searchOne
    rw [hf]
  · intro c hc
    obtain ⟨it, hit, hee⟩ := List.mem_filterMap.mp hc
    by_cases hm : (termWords t ∩ itemWords it).card = 0
    · rw [if_pos hm] at hee
      cases hee
    · rw [if_neg hm] at hee
      cases hee
      refine ⟨rfl, hm, ?_⟩
      intro hw
      exact cand_score_formula (termWords t).card ((termWords t ∩ itemWords it).card)
        (pyIn (termLower t) (lowerStr it.name)) hw
  · intro it hit hm
    exact ⟨⟨it,
        10 * (termWords t ∩ itemWords it).card +
          (if pyIn (termLower t) (lowerStr it.name) then 5 * (termWords t).card else 0),
        (termWords t ∩ itemWords it).card⟩,
      List.mem_filterMap.mpr ⟨it, hit, by rw [if_neg hm]⟩, rfl⟩
  · intro hw
    have hsorted := List.sorted_insertionSort candRel (candsFor (allItemsOf menu) t)
    refine List.Pairwise.imp ?_ hsorted
    intro a b hab
    have hle : b.scaledScore ≤ a.scaledScore := by
      rcases hab with h | ⟨h, -⟩
      · omega
      · omega
    exact cand_mono (termWords t).card b.scaledScore a.scaledScore hw hle
  · intro hf
    constructor
    · intro best rest hR hw
      constructor
      · intro hq
        have hcond : 8 * (termWords t).card ≤ best.scaledScore :=
          (cand_threshold (termWords t).card best.scaledScore hw).mp hq
        simp only [searchOne, hf, hR]
        rw [if_pos hcond]
      · intro hq
        have hcond : ¬ 8 * (termWords t).card ≤ best.scaledScore := by
          intro hc
          exact hq ((cand_threshold (termWords t).card best.scaledScore hw).mpr hc)
        constructor
        · simp only [searchOne, hf, hR]
          rw [if_neg hcond]
        · simp only [List.length_take]
          omega
    · intro hR
      simp only [searchOne, hf, hR]
  · constructor
    · intro h it hit
      by_contra hm
      have hmem : (⟨it,
          10 * (termWords t ∩ itemWords it).card +
            (if pyIn (termLower t) (lowerStr it.name) then 5 * (termWords t).card else 0),
          (termWords t ∩ itemWords it).card⟩ : Cand) ∈ candsFor (allItemsOf menu) t :=
        List.mem_filterMap.mpr ⟨it, hit, by rw [if_neg hm]⟩
      rw [h] at hmem
      cases hmem
    · intro h
      apply List.filterMap_eq_nil_iff.mpr
      intro it hit
      rw [if_pos (h it hit)]

/-- Witness for C5: the query "orange chicken" on `menuEx`. -/
theorem menu_search_contract_witness : MenuSearchContract menuEx "orange chicken" :=
  menu_search_contract menuEx "orange chicken"
